import Mathlib

/-!
Shallow embedding of `fuel/datasets/hdf5.py` (class `H5PYDataset`): the
handle registry (`ref_counts` with `_out_of_memory_open` / `_out_of_memory_close`),
split resolution (`load`), and the data-retrieval protocol
(`_in_memory_get_data` / `_out_of_memory_get_data`).

Columns are modelled as Lean lists whose elements (the per-record rows) are an
opaque type `α`; only the first-dimension length of a column is ever inspected
by the code, which matches `shape[0]`.  Python exceptions are modelled with
`Except PyErr`.
-/

set_option autoImplicit false

deriving instance DecidableEq for Except

namespace Hdf5

/-- Python exceptions that the modelled code can raise. -/
inductive PyErr where
  | valueError
  | typeError
  | keyError
  | indexError
  | nameError
  deriving DecidableEq, Repr

/-- Python index adjustment for a slice bound when the step is positive:
`max(i + n, 0)` for negative `i`, `min(i, n)` otherwise. -/
def pyAdjPos (n : Nat) (i : Int) : Nat :=
  if i < 0 then (i + n).toNat else min i.toNat n

/-- Python index adjustment for a slice bound when the step is negative:
`max(i + n, -1)` for negative `i`, `min(i, n - 1)` otherwise. -/
def pyAdjNeg (n : Nat) (i : Int) : Int :=
  if i < 0 then max (i + n) (-1) else min i ((n : Int) - 1)

/-- Every `k`-th element of a list (`k ≥ 1`), starting with the first; the
second argument counts how many elements remain to be skipped before the next
one is kept, so a stride starts with it at 0. -/
def strideUp {α : Type} (k : Nat) : Nat → List α → List α
  | _, [] => []
  | 0, x :: xs => x :: strideUp k (k - 1) xs
  | n + 1, _ :: xs => strideUp k n xs

/-- Python slice extraction `xs[start:stop:step]` (CPython `PySlice_AdjustIndices`
semantics): a zero step is a `ValueError`; a positive step walks forward from the
adjusted lower bound, a negative step walks backward. -/
def pySlice {α : Type} (xs : List α) (ostart ostop ostep : Option Int) :
    Except PyErr (List α) :=
  match ostep with
  | some 0 => .error .valueError
  | _ =>
    let n := xs.length
    let step := ostep.getD 1
    if 0 < step then
      let lo := match ostart with | none => 0 | some i => pyAdjPos n i
      let hi := match ostop with | none => n | some i => pyAdjPos n i
      .ok (strideUp step.toNat 0 ((xs.take hi).drop lo))
    else
      let lo := match ostart with | none => (n : Int) - 1 | some i => pyAdjNeg n i
      let hi := match ostop with | none => (-1 : Int) | some i => pyAdjNeg n i
      .ok (strideUp step.natAbs 0 (((xs.take (lo + 1).toNat).drop (hi + 1).toNat).reverse))

/-- Python list/array indexing `xs[i]` with negative-index wraparound;
out of bounds is an `IndexError`. -/
def pyGetIndex {α : Type} (xs : List α) (i : Int) : Except PyErr α :=
  let j := if i < 0 then i + xs.length else i
  if j < 0 then .error .indexError
  else
    match xs.get? j.toNat with
    | some v => .ok v
    | none => .error .indexError

/-- Fancy indexing `xs[[i1, ..., ik]]`: gather each index, failing on the first
out-of-bounds one. -/
def pyGather {α : Type} (xs : List α) (idxs : List Int) : Except PyErr (List α) :=
  idxs.mapM (pyGetIndex xs)

/-- Shape of a `request` argument to `get_data`: a slice object, a list of
indices, or (`rint`) any other value — concretely an integer, the
representative non-slice non-list request.  A Python `request=None` is the
`none` of a surrounding `Option Request`. -/
inductive Request where
  | rslice (rstart rstop rstep : Option Int)
  | rlist (idxs : List Int)
  | rint (i : Int)
  deriving DecidableEq, Repr

/-- Result of indexing one column: a slice or gather yields a sub-array of
rows, an integer index yields a single row. -/
inductive NpResult (α : Type) where
  | subarray (rows : List α)
  | row (r : α)
  deriving DecidableEq, Repr

/-- Indexing one column with a request, `data_source[request]`.  Both callers
(`_in_memory_get_data`, `_out_of_memory_get_data`) reject a `None` request
before indexing, so no `None` case is needed here. -/
def pyIndexCol {α : Type} (xs : List α) : Request → Except PyErr (NpResult α)
  | .rslice s t st => (pySlice xs s t st).map .subarray
  | .rlist l => (pyGather xs l).map .subarray
  | .rint i => (pyGetIndex xs i).map .row

/-- An open HDF5 file as `H5PYDataset` sees it: the root-group data sources
(`handle.items()`, an ordered name-to-column mapping) and the root-group
attributes (`handle.attrs`, split name to `[start, stop)` pair). -/
structure HFile (α : Type) where
  columns : List (String × List α)
  attrs : List (String × (Int × Int))
  deriving DecidableEq, Repr

/-- Lookup in an ordered string-keyed mapping (Python `dict` access). -/
def lookupStr {β : Type} (l : List (String × β)) (k : String) : Option β :=
  (l.find? (fun p => p.1 = k)).map (·.2)

/-- Source names of an open file, `tuple(handle.keys())` — what the
`provides_sources` property of `H5PYDataset` reads. -/
def provides_sources {α : Type} (f : HFile α) : List String :=
  f.columns.map (·.1)

/-- Modelled from the spec: `Dataset.filter_sources` of the dataset base class
(declared outside `src/`, an external collaborator per the spec) restricts a
list of per-column results, positionally aligned with the view's
`provides_sources`, to the columns in the view's exposed `sources`, keeping
the aligned order.  The zip truncates at the shorter list, as Python `zip`
does. -/
def filter_sources {β : Type} (provides sources : List String) (data : List β) :
    List β :=
  (data.zip provides).filterMap
    (fun p => if p.2 ∈ sources then some p.1 else none)

/-- One value of the `ref_counts` defaultdict: either the `0` that
`defaultdict(int)` creates for a missing key, or the two-element list
`[handle, count]` the code stores.  Python truthiness: `0` is falsy, a
nonempty list is truthy whatever the count. -/
inductive RegEntry (α : Type) where
  | intZero
  | pair (h : HFile α) (count : Int)
  deriving DecidableEq, Repr

/-- Truthiness of a registry value, as tested by `if not ref_counts[...]`. -/
def RegEntry.truthy {α : Type} : RegEntry α → Bool
  | .intZero => false
  | .pair _ _ => true

/-- The `H5PYDataset.ref_counts` table, keyed by file path. -/
abbrev Registry (α : Type) : Type := List (String × RegEntry α)

/-- Reading `ref_counts[k]`: a missing key behaves as the defaultdict's fresh
`0`.  (The defaultdict also inserts that `0`; the insertion is observationally
irrelevant here, since an `intZero` entry behaves like an absent key in every
operation of the class.) -/
def refLookup {α : Type} (reg : Registry α) (k : String) : RegEntry α :=
  ((List.find? (fun p => p.1 = k) reg).map (·.2)).getD .intZero

/-- Writing `ref_counts[k] = v`: replace the entry if the key is present,
insert it otherwise. -/
def refSet {α : Type} (reg : Registry α) (k : String) (v : RegEntry α) :
    Registry α :=
  if (List.find? (fun p => p.1 = k) reg).isSome then
    List.map (fun p => if p.1 = k then (k, v) else p) reg
  else
    reg ++ [(k, v)]

/-- Registry plus instrumentation: how many times `h5py.File` was called and
how many times a handle's `close()` ran, per path — the observable I/O of the
handle registry. -/
structure RegState (α : Type) where
  reg : Registry α
  opens : String → Nat
  closes : String → Nat

/-- The registry state at process start: empty table, no I/O performed. -/
def regInit {α : Type} : RegState α := ⟨[], fun _ => 0, fun _ => 0⟩

/-- The `_get_file_id` method: collect the registry keys equal to `self.path`;
if none, return the path itself, else the (unique) found key. -/
def get_file_id {α : Type} (reg : Registry α) (path : String) : String :=
  match (List.map (fun p => p.1) reg).filter (fun k => k = path) with
  | [] => path
  | f :: _ => f

/-- The `_out_of_memory_open` method.  `disk` maps a path to the file contents
that `h5py.File(name=file_id, mode="r")` would expose.  If the looked-up
registry value is falsy the file is opened and stored with count 1; otherwise
only the stored handle is read back — the count is left unchanged. -/
def out_of_memory_open {α : Type} (disk : String → HFile α) (path : String)
    (s : RegState α) : RegState α × String :=
  let fid := get_file_id s.reg path
  match refLookup s.reg fid with
  | .intZero =>
      ({ reg := refSet s.reg fid (.pair (disk fid) 1),
         opens := fun q => if q = fid then s.opens q + 1 else s.opens q,
         closes := s.closes }, fid)
  | .pair _ _ => (s, fid)

/-- The `_out_of_memory_close` method: `ref_counts[state][1] -= 1` (a
`TypeError` when the value is the defaultdict's `0`), then
`if not ref_counts[state]` — tested on the stored two-element list, which is
always truthy, so the branch that would run `H5PyDataset.ref_counts[state][0]
.close()` (itself a `NameError`: `H5PyDataset` is undefined) and delete the
entry is taken exactly when the updated value is falsy. -/
def out_of_memory_close {α : Type} (s : RegState α) (state : String) :
    Except PyErr (RegState α) :=
  match refLookup s.reg state with
  | .intZero => .error .typeError
  | .pair h c =>
      let reg1 := refSet s.reg state (.pair h (c - 1))
      if (refLookup reg1 state).truthy = false then .error .nameError
      else .ok { s with reg := reg1 }

/-- The registry read `H5PYDataset.ref_counts[state][0]` performed by `load`,
`provides_sources` and `_out_of_memory_get_data`: with no active entry the
defaultdict yields `0` and `0[0]` raises a `TypeError`. -/
def registry_get {α : Type} (reg : Registry α) (state : String) :
    Except PyErr (HFile α) :=
  match refLookup reg state with
  | .intZero => .error .typeError
  | .pair h _ => .ok h

/-- A Python `slice(start, stop, step)` object, each field possibly `None`. -/
structure PySl where
  sstart : Option Int
  sstop : Option Int
  sstep : Option Int
  deriving DecidableEq, Repr

/-- The in-memory branch of `load`:
`[data_source[self.subset] for source_name, data_source in handle.items()
if source_name in self.sources]`, with `self.subset` already rewritten to the
resolved slice. -/
def in_memory_data {α : Type} (f : HFile α) (sources : List String)
    (subset : PySl) : Except PyErr (List (List α)) :=
  (f.columns.filter (fun p => p.1 ∈ sources)).mapM
    (fun p => pySlice p.2 subset.sstart subset.sstop subset.sstep)

/-- The base range `start, stop = handle.attrs[self.which_set] if
self.which_set else (0, shapes[0][0])`: a truthy `which_set` (a nonempty
string) reads the split attribute (`KeyError` if absent); otherwise the range
is `(0, first column length)` (`IndexError` on a file with no columns). -/
def resolve_base {α : Type} (f : HFile α) (which_set : Option String) :
    Except PyErr (Int × Int) :=
  let whole : Except PyErr (Int × Int) :=
    match f.columns.head? with
    | some p => .ok (0, (p.2.length : Int))
    | none => .error .indexError
  match which_set with
  | some w =>
      if w = "" then whole
      else
        match lookupStr f.attrs w with
        | some p => .ok p
        | none => .error .keyError
  | none => whole

/-- The `load` method, with the surrounding `_out_of_memory_open`/`close`
bracket factored out (the file contents `f` are the handle it obtains).
Returns the reassigned `self.subset` (now with concrete bounds),
`self.num_examples`, and `self.data_sources` (`some` data in memory-mode,
`none` in streamed mode). -/
def load {α : Type} (f : HFile α) (which_set : Option String) (subset : PySl)
    (sources : List String) (load_in_memory : Bool) :
    Except PyErr (PySl × Int × Option (List (List α))) :=
  let shapes := f.columns.map (fun p => p.2.length)
  if shapes.any (fun s0 => s0 ≠ shapes.headD 0) then .error .valueError
  else if subset.sstep ≠ none ∧ subset.sstep ≠ some 1 then .error .valueError
  else
    match resolve_base f which_set with
    | .error e => .error e
    | .ok (bstart, bstop) =>
        let newSubset : PySl :=
          ⟨some (subset.sstart.getD bstart), some (subset.sstop.getD bstop),
           subset.sstep⟩
        let numExamples := (subset.sstop.getD bstop) - (subset.sstart.getD bstart)
        if load_in_memory then
          match in_memory_data f sources newSubset with
          | .error e => .error e
          | .ok ds => .ok (newSubset, numExamples, some ds)
        else
          .ok (newSubset, numExamples, none)

/-- The `_in_memory_get_data` method: a non-`None` state or a `None` request
is a `ValueError`; otherwise each locally stored column is indexed directly
with the request and the results go through `filter_sources`. -/
def in_memory_get_data {α : Type} (data_sources : List (List α))
    (provides sources : List String) (state : Option String)
    (request : Option Request) : Except PyErr (List (NpResult α)) :=
  match state, request with
  | none, some r =>
      match data_sources.mapM (fun col => pyIndexCol col r) with
      | .error e => .error e
      | .ok vals => .ok (filter_sources provides sources vals)
  | _, _ => .error .valueError

/-- The request translation at the top of `_out_of_memory_get_data`: a slice
gets `self.subset.start` added to both bounds (`None + int` being a
`TypeError`), a list gets it added to every index, anything else (including a
`None` request) is a `ValueError`. -/
def out_of_memory_translate (sstart : Int) :
    Option Request → Except PyErr Request
  | some (.rslice os ot st) =>
      match os with
      | none => .error .typeError
      | some s =>
          match ot with
          | none => .error .typeError
          | some t => .ok (.rslice (some (s + sstart)) (some (t + sstart)) st)
  | some (.rlist l) => .ok (.rlist (l.map (· + sstart)))
  | _ => .error .valueError

/-- The `_out_of_memory_get_data` method: translate the request, fetch the
handle from the registry, index every column of the file with the translated
request, and filter the results to the view's sources. -/
def out_of_memory_get_data {α : Type} (sstart : Int)
    (provides sources : List String) (s : RegState α) (state : String)
    (request : Option Request) : Except PyErr (List (NpResult α)) :=
  match out_of_memory_translate sstart request with
  | .error e => .error e
  | .ok r =>
      match registry_get s.reg state with
      | .error e => .error e
      | .ok handle =>
          match (handle.columns.map (·.2)).mapM (fun col => pyIndexCol col r) with
          | .error e => .error e
          | .ok vals => .ok (filter_sources provides sources vals)

/-! Helper lemmas about the embedded operations. -/

theorem strideUp_one {α : Type} (xs : List α) : strideUp 1 0 xs = xs := by
  induction xs with
  | nil => rfl
  | cons x xs ih => simpa [strideUp] using ih

theorem pyAdjPos_eq {n : Nat} {i : Int} (h0 : 0 ≤ i) (hn : i ≤ (n : Int)) :
    pyAdjPos n i = i.toNat := by
  unfold pyAdjPos
  rw [if_neg (by omega)]
  omega

theorem pySlice_some_none {α : Type} (xs : List α) (a b : Int) :
    pySlice xs (some a) (some b) none
      = .ok ((xs.take (pyAdjPos xs.length b)).drop (pyAdjPos xs.length a)) := by
  simp [pySlice, strideUp_one]

/-- With in-range nonnegative bounds, Python slicing is plain take-then-drop. -/
theorem pySlice_take_drop {α : Type} (xs : List α) (a b : Int)
    (ha : 0 ≤ a) (hb : 0 ≤ b) (han : a ≤ (xs.length : Int))
    (hbn : b ≤ (xs.length : Int)) :
    pySlice xs (some a) (some b) none = .ok ((xs.take b.toNat).drop a.toNat) := by
  rw [pySlice_some_none, pyAdjPos_eq ha han, pyAdjPos_eq hb hbn]

theorem pySlice_full {α : Type} (xs : List α) :
    pySlice xs none none none = .ok xs := by
  simp [pySlice, strideUp_one]

/-- A slice extraction only fails on a zero step. -/
theorem pySlice_isOk {α : Type} (xs : List α) (os ot ostep : Option Int)
    (h : ostep ≠ some 0) : ∃ ys, pySlice xs os ot ostep = .ok ys := by
  unfold pySlice
  split
  · exact absurd rfl h
  · dsimp only
    split
    · exact ⟨_, rfl⟩
    · exact ⟨_, rfl⟩

theorem exceptMapM_ok {β γ : Type} (f : β → Except PyErr γ) (g : β → γ) :
    ∀ l : List β, (∀ x ∈ l, f x = .ok (g x)) → l.mapM f = .ok (l.map g) := by
  intro l
  induction l with
  | nil => intro _; rfl
  | cons x xs ih =>
      intro h
      rw [List.mapM_cons, h x (List.mem_cons_self x xs),
        ih (fun y hy => h y (List.mem_cons_of_mem x hy))]
      rfl

theorem exceptMapM_isOk {β γ : Type} (f : β → Except PyErr γ) :
    ∀ l : List β, (∀ x ∈ l, ∃ y, f x = .ok y) → ∃ ys, l.mapM f = .ok ys := by
  intro l
  induction l with
  | nil => intro _; exact ⟨[], rfl⟩
  | cons x xs ih =>
      intro h
      obtain ⟨y, hy⟩ := h x (List.mem_cons_self x xs)
      obtain ⟨ys, hys⟩ := ih (fun z hz => h z (List.mem_cons_of_mem x hz))
      exact ⟨y :: ys, by rw [List.mapM_cons, hy, hys]; rfl⟩

/-- When the data list is positionally aligned with the provides list (both
come from the same column list), `filter_sources` keeps exactly the entries of
the exposed columns, in column order. -/
theorem filter_sources_aligned {β γ : Type} (sources : List String)
    (g : String × β → γ) :
    ∀ l : List (String × β),
      filter_sources (l.map (·.1)) sources (l.map g)
        = (l.filter (fun p => p.1 ∈ sources)).map g := by
  intro l
  induction l with
  | nil => rfl
  | cons p l ih =>
      unfold filter_sources at ih ⊢
      simp only [List.map_cons, List.zip_cons_cons, List.filterMap_cons,
        List.filter_cons]
      by_cases h : p.1 ∈ sources
      · simp [h, ih]
      · simp [h, ih]

/-- When every provided source is exposed and the data is aligned,
`filter_sources` is the identity. -/
theorem filter_sources_all {β : Type} (sources : List String) :
    ∀ (provides : List String) (data : List β),
      data.length = provides.length → (∀ s ∈ provides, s ∈ sources) →
      filter_sources provides sources data = data := by
  intro provides
  induction provides with
  | nil =>
      intro data hlen _
      rw [List.length_nil, List.length_eq_zero] at hlen
      subst hlen; rfl
  | cons s provides ih =>
      intro data hlen hall
      match data with
      | [] => rfl
      | d :: data =>
          unfold filter_sources at ih ⊢
          simp only [List.zip_cons_cons, List.filterMap_cons,
            if_pos (hall s (List.mem_cons_self s provides))]
          rw [ih data (by simpa using hlen)
            (fun t ht => hall t (List.mem_cons_of_mem s ht))]

/-- Unfolding step of `filter_sources` on a cons cell. -/
theorem filter_sources_cons {β : Type} (provides sources : List String)
    (n : String) (d : β) (data : List β) :
    filter_sources (n :: provides) sources (d :: data)
      = if n ∈ sources then d :: filter_sources provides sources data
        else filter_sources provides sources data := by
  unfold filter_sources
  rw [List.zip_cons_cons, List.filterMap_cons]
  by_cases h : n ∈ sources
  · simp [h]
  · simp [h]

/-- When every provided source aligned with the data is exposed — the data
need only cover an initial segment of the provides list — `filter_sources` is
the identity. -/
theorem filter_sources_initial {β : Type} (sources : List String) :
    ∀ (provides : List String) (data : List β),
      data.length ≤ provides.length →
      (∀ s ∈ provides.take data.length, s ∈ sources) →
      filter_sources provides sources data = data := by
  intro provides data
  induction data generalizing provides with
  | nil =>
      intro _ _
      unfold filter_sources
      rw [List.zip_nil_left]
      rfl
  | cons d data ih =>
      intro hlen hall
      match provides with
      | [] => simp at hlen
      | s :: provides =>
          have hs : s ∈ sources := hall s (by simp)
          rw [filter_sources_cons, if_pos hs,
            ih provides (by simpa using hlen)
              (fun t ht => hall t (List.mem_cons_of_mem s (by simpa using ht)))]

/-- Commuting `filter_sources` with a successful `mapM`: indexing every column
of the file and filtering the results positionally to the exposed set gives
the same outcome as indexing only the exposed columns, in file order.  This is
the streamed `get_data` result shape, for any request whose indexing succeeds
on every column. -/
theorem mapM_filter_sources_comm {β γ : Type} (sources : List String)
    (k : β → Except PyErr γ) :
    ∀ l : List (String × β), (∀ p ∈ l, ∃ v, k p.2 = .ok v) →
      ∃ vals, (l.map (fun p => p.2)).mapM k = .ok vals
        ∧ Except.ok (filter_sources (l.map (fun p => p.1)) sources vals)
            = (l.filter (fun p => p.1 ∈ sources)).mapM (fun p => k p.2) := by
  intro l
  induction l with
  | nil => intro _; exact ⟨[], rfl, rfl⟩
  | cons p l ih =>
      intro h
      obtain ⟨v, hv⟩ := h p (List.mem_cons_self p l)
      obtain ⟨vals, hvals, hfs⟩ := ih (fun q hq => h q (List.mem_cons_of_mem p hq))
      refine ⟨v :: vals, ?_, ?_⟩
      · rw [List.map_cons, List.mapM_cons, hv, hvals]
        rfl
      · simp only [List.map_cons]
        rw [filter_sources_cons, List.filter_cons]
        by_cases hp1 : p.1 ∈ sources
        · rw [if_pos hp1, if_pos (by simpa using hp1), List.mapM_cons]
          rw [hv, ← hfs]
          rfl
        · rw [if_neg hp1, if_neg (by simpa using hp1)]
          exact hfs

theorem get_file_id_eq {α : Type} (reg : Registry α) (path : String) :
    get_file_id reg path = path := by
  unfold get_file_id
  split
  · rfl
  · rename_i f rest h
    have hf : f ∈ (List.map (fun p => p.1) reg).filter (fun k => k = path) :=
      h ▸ List.mem_cons_self f rest
    exact of_decide_eq_true (List.mem_filter.mp hf).2

theorem find_refSet {α : Type} (k : String) (v : RegEntry α) :
    ∀ reg : Registry α,
      List.find? (fun p => p.1 = k) (refSet reg k v) = some (k, v) := by
  intro reg
  unfold refSet
  split
  · rename_i hsome
    induction reg with
    | nil => simp at hsome
    | cons q reg ih =>
        by_cases hq : q.1 = k
        · simp [hq]
        · have hsome' : (List.find? (fun p => p.1 = k) reg).isSome := by
            simpa [List.find?_cons, hq] using hsome
          simpa [List.find?_cons, hq] using ih hsome'
  · rename_i hnone
    induction reg with
    | nil => simp
    | cons q reg ih =>
        by_cases hq : q.1 = k
        · exfalso
          simp [List.find?_cons, hq] at hnone
        · have hnone' : ¬(List.find? (fun p => p.1 = k) reg).isSome = true := by
            simpa [List.find?_cons, hq] using hnone
          simpa [List.find?_cons, hq] using ih hnone'

theorem refLookup_refSet_self {α : Type} (reg : Registry α) (k : String)
    (v : RegEntry α) : refLookup (refSet reg k v) k = v := by
  unfold refLookup
  rw [find_refSet]
  rfl

/-- Taking a relative sub-range out of an extracted range equals taking the
translated absolute sub-range out of the original list. -/
theorem take_drop_comp {α : Type} (xs : List α) (a b i j : Int)
    (ha : 0 ≤ a) (hab : a ≤ b) (hi : 0 ≤ i) (hij : i ≤ j) (hj : j ≤ b - a) :
    (((xs.take b.toNat).drop a.toNat).take j.toNat).drop i.toNat
      = (xs.take (j + a).toNat).drop (i + a).toNat := by
  rw [List.drop_take, List.drop_drop, List.drop_take, List.take_take,
    min_eq_left (by omega), List.drop_take]
  have em : a.toNat + i.toNat = (i + a).toNat := by omega
  have en : j.toNat - i.toNat = (j + a).toNat - (i + a).toNat := by omega
  rw [em, en]

/-- Composing two positive-step unit slices: slicing the resolved range out of
a column and then taking a relative sub-slice equals taking the translated
absolute sub-slice directly. -/
theorem pySlice_comp {α : Type} (xs ys : List α) (a b i j : Int)
    (ha : 0 ≤ a) (hab : a ≤ b) (hb : b ≤ (xs.length : Int))
    (hi : 0 ≤ i) (hij : i ≤ j) (hj : j ≤ b - a)
    (hys : pySlice xs (some a) (some b) none = .ok ys) :
    pySlice ys (some i) (some j) none = pySlice xs (some (i + a)) (some (j + a)) none := by
  rw [pySlice_take_drop xs a b ha (by omega) (by omega) hb] at hys
  have hys' : ys = (xs.take b.toNat).drop a.toNat := by
    injection hys with h; exact h.symm
  have hlen : ys.length = b.toNat - a.toNat := by
    rw [hys', List.length_drop, List.length_take]
    omega
  rw [pySlice_take_drop ys i j hi (by omega) (by omega) (by omega),
    pySlice_take_drop xs (i + a) (j + a) (by omega) (by omega) (by omega) (by omega)]
  rw [hys']
  rw [take_drop_comp xs a b i j ha hab hi hij hj]

/-- A successful `mapM` over `Except` preserves the list length. -/
theorem exceptMapM_length {β γ : Type} (f : β → Except PyErr γ) :
    ∀ (l : List β) (ys : List γ), l.mapM f = .ok ys → ys.length = l.length := by
  intro l
  induction l with
  | nil => intro ys h; cases h; rfl
  | cons x xs ih =>
      intro ys h
      rw [List.mapM_cons] at h
      cases hx : f x with
      | error e => rw [hx] at h; exact Except.noConfusion h
      | ok y =>
          rw [hx] at h
          cases hxs : xs.mapM f with
          | error e => rw [hxs] at h; exact Except.noConfusion h
          | ok ys' =>
              rw [hxs] at h
              injection h with h
              cases h
              simpa using ih ys' hxs

/-- When all columns share first-dimension length `L`, the length check at the
top of `load` passes. -/
theorem shapes_any_false {α : Type} (f : HFile α) (L : Nat)
    (hlen : ∀ p ∈ f.columns, p.2.length = L) :
    ((f.columns.map (fun p => p.2.length)).any
      (fun s0 => s0 ≠ (f.columns.map (fun p => p.2.length)).headD 0)) = false := by
  rw [List.any_eq_false]
  intro x hx
  obtain ⟨p, hp, rfl⟩ := List.mem_map.mp hx
  have hpL := hlen p hp
  have hne : f.columns ≠ [] := by
    intro h0
    rw [h0] at hp
    exact absurd hp (List.not_mem_nil p)
  obtain ⟨q, t, hc⟩ := List.exists_cons_of_ne_nil hne
  have hq : q.2.length = L := hlen q (hc ▸ List.mem_cons_self q t)
  rw [hc]
  simp [hq, hpL]

/-- Successful streamed-mode run of `load`. -/
theorem load_ok {α : Type} (f : HFile α) (ws : Option String) (subset : PySl)
    (sources : List String) (bstart bstop : Int)
    (hsh : ((f.columns.map (fun p => p.2.length)).any
      (fun s0 => s0 ≠ (f.columns.map (fun p => p.2.length)).headD 0)) = false)
    (hstp : subset.sstep = none ∨ subset.sstep = some 1)
    (hb : resolve_base f ws = .ok (bstart, bstop)) :
    load f ws subset sources false
      = .ok (⟨some (subset.sstart.getD bstart), some (subset.sstop.getD bstop),
          subset.sstep⟩,
        (subset.sstop.getD bstop) - (subset.sstart.getD bstart), none) := by
  unfold load
  dsimp only
  rw [hsh, if_neg (by simp),
    if_neg (by rcases hstp with h | h <;> simp [h]), hb]
  rfl

/-- Successful in-memory run of `load`. -/
theorem load_ok_mem {α : Type} (f : HFile α) (ws : Option String) (subset : PySl)
    (sources : List String) (bstart bstop : Int)
    (ds : List (List α))
    (hsh : ((f.columns.map (fun p => p.2.length)).any
      (fun s0 => s0 ≠ (f.columns.map (fun p => p.2.length)).headD 0)) = false)
    (hstp : subset.sstep = none ∨ subset.sstep = some 1)
    (hb : resolve_base f ws = .ok (bstart, bstop))
    (hds : in_memory_data f sources
        ⟨some (subset.sstart.getD bstart), some (subset.sstop.getD bstop),
          subset.sstep⟩ = .ok ds) :
    load f ws subset sources true
      = .ok (⟨some (subset.sstart.getD bstart), some (subset.sstop.getD bstop),
          subset.sstep⟩,
        (subset.sstop.getD bstop) - (subset.sstart.getD bstart), some ds) := by
  unfold load
  dsimp only
  rw [hsh, if_neg (by simp),
    if_neg (by rcases hstp with h | h <;> simp [h]), hb]
  dsimp only
  rw [hds]
  rfl

/-- Base-range resolution with a (truthy) split name reads the attribute. -/
theorem resolve_base_some {α : Type} (f : HFile α) (w : String) (a b : Int)
    (hw : w ≠ "") (hattr : lookupStr f.attrs w = some (a, b)) :
    resolve_base f (some w) = .ok (a, b) := by
  unfold resolve_base
  dsimp only
  rw [if_neg hw, hattr]

/-- Base-range resolution without a split name is the whole dataset,
`(0, first column length)`. -/
theorem resolve_base_none {α : Type} (f : HFile α) (q : String × List α)
    (t : List (String × List α)) (hc : f.columns = q :: t) :
    resolve_base f none = .ok (0, (q.2.length : Int)) := by
  unfold resolve_base
  rw [hc]
  rfl

/-- Inversion of a successful `load`: recover the step condition, the base
range and the shape of the resolved slice. -/
theorem load_ok_inv {α : Type} {f : HFile α} {ws : Option String} {subset : PySl}
    {sources : List String} {lim : Bool} {sl : PySl} {n : Int}
    {ds : Option (List (List α))}
    (h : load f ws subset sources lim = .ok (sl, n, ds)) :
    (subset.sstep = none ∨ subset.sstep = some 1)
    ∧ ∃ bstart bstop, resolve_base f ws = .ok (bstart, bstop)
        ∧ sl = ⟨some (subset.sstart.getD bstart), some (subset.sstop.getD bstop),
            subset.sstep⟩
        ∧ n = (subset.sstop.getD bstop) - (subset.sstart.getD bstart)
        ∧ ((f.columns.map (fun p => p.2.length)).any
            (fun s0 => s0 ≠ (f.columns.map (fun p => p.2.length)).headD 0)) = false := by
  unfold load at h
  dsimp only at h
  by_cases hsh : ((f.columns.map (fun p => p.2.length)).any
      (fun s0 => s0 ≠ (f.columns.map (fun p => p.2.length)).headD 0)) = true
  · rw [if_pos hsh] at h
    simp at h
  · rw [if_neg hsh] at h
    by_cases hstep : subset.sstep ≠ none ∧ subset.sstep ≠ some 1
    · rw [if_pos hstep] at h
      simp at h
    · rw [if_neg hstep] at h
      have hstp : subset.sstep = none ∨ subset.sstep = some 1 := by
        by_cases h1 : subset.sstep = none
        · exact Or.inl h1
        · by_cases h2 : subset.sstep = some 1
          · exact Or.inr h2
          · exact absurd ⟨h1, h2⟩ hstep
      refine ⟨hstp, ?_⟩
      cases hb : resolve_base f ws with
      | error e => rw [hb] at h; simp at h
      | ok bs =>
          obtain ⟨bstart, bstop⟩ := bs
          rw [hb] at h
          dsimp only at h
          cases lim with
          | false =>
              simp only [Bool.false_eq_true, if_false, Except.ok.injEq,
                Prod.mk.injEq] at h
              obtain ⟨h1, h2, _⟩ := h
              exact ⟨bstart, bstop, rfl, h1.symm, h2.symm,
                Bool.not_eq_true _ ▸ hsh⟩
          | true =>
              simp only [if_true] at h
              cases hm : in_memory_data f sources
                  ⟨some (subset.sstart.getD bstart),
                   some (subset.sstop.getD bstop), subset.sstep⟩ with
              | error e => rw [hm] at h; simp at h
              | ok ds' =>
                  rw [hm] at h
                  simp only [Except.ok.injEq, Prod.mk.injEq] at h
                  obtain ⟨h1, h2, _⟩ := h
                  exact ⟨bstart, bstop, rfl, h1.symm, h2.symm,
                    Bool.not_eq_true _ ▸ hsh⟩

/-! Concrete scenario data used by counterexamples and code-bug evaluations. -/

/-- A one-column file used to exercise the handle registry. -/
def fileC : HFile Nat := ⟨[("c", [7])], []⟩

/-- A disk that serves `fileC` at every path. -/
def diskC : String → HFile Nat := fun _ => fileC

/-- Registry state after one acquisition of path `p`. -/
def openedOnce : RegState Nat := (out_of_memory_open diskC "p" regInit).1

/-- Registry state after two acquisitions of path `p` (two views on one path). -/
def openedTwice : RegState Nat := (out_of_memory_open diskC "p" openedOnce).1

/-- A two-column file (columns `a` and `b`, one record each) for the
source-filtering counterexamples. -/
def fileAB : HFile Nat := ⟨[("a", [0]), ("b", [5])], []⟩

/-- A registry holding `fileAB` open at path `p` with count 1. -/
def stateAB : RegState Nat := ⟨[("p", .pair fileAB 1)], fun _ => 0, fun _ => 0⟩

/-! The claims. -/

/-- C1 (code bug): the claim says n acquisitions of `p` followed by n releases
leave the registry with no entry for `p`, close the file exactly once, and
never leave a zero-count entry.  Evaluating the code at n = 1: after one
`_out_of_memory_open` and one `_out_of_memory_close` the registry still holds
the entry `[handle, 0]` for `p` — a registered zero-count entry — and
`close()` has run zero times, because `if not ref_counts[state]` tests the
truthiness of the two-element list, which never fires (and its body names the
undefined `H5PyDataset`). -/
theorem claim1_release_leaves_zero_count_entry :
    (out_of_memory_close openedOnce "p").map
        (fun t => (refLookup t.reg "p", t.closes "p", t.opens "p"))
      = .ok (.pair fileC 0, 0, 1) := by
  rfl

/-- C2 (code bug): the claim says a second acquisition of an already-open path
increments the count to 2.  Evaluating the code: after two
`_out_of_memory_open` calls on `p` the entry still has count 1 (the
else-branch only reads the handle back and never increments), though the file
was indeed opened only once. -/
theorem claim2_second_acquire_keeps_count_one :
    refLookup openedTwice.reg "p" = .pair fileC 1 ∧ openedTwice.opens "p" = 1 :=
  ⟨rfl, rfl⟩

/-- C3 (code bug): the claim says that in the two-view scenario the registry
`get` fails once both views are closed, and that it fails whenever no active
entry exists.  Evaluating the code: with no entry the lookup does fail (the
defaultdict yields `0` and `0[0]` is a `TypeError`), but after
open-open-close-close on `p` the entry `[handle, -1]` is still registered, so
`ref_counts[state][0]` succeeds and returns the handle. -/
theorem claim3_get_succeeds_after_both_closes :
    registry_get (regInit (α := Nat)).reg "p" = .error .typeError
    ∧ ((out_of_memory_close openedTwice "p").bind
          (fun t => out_of_memory_close t "p")).map
        (fun t => (registry_get t.reg "p", refLookup t.reg "p"))
        = .ok (.ok fileC, .pair fileC (-1)) :=
  ⟨rfl, rfl⟩

/-- C10 (confirmed): a streamed view's `get_data` raises a `TypeError` on any
slice whose start or stop is `None` (the translation computes `None +
subset.start`), instead of returning the full resolved range; an in-memory
view accepts the full slice `slice(None)` and returns its stored data. -/
theorem claim10_open_ended_slice {α : Type} (sstart : Int) (ot : Option Int)
    (i : Int) (st : Option Int) (provides sources : List String)
    (s : RegState α) (tok : String) (ds : List (List α)) :
    out_of_memory_get_data sstart provides sources s tok
        (some (.rslice none ot st)) = .error .typeError
    ∧ out_of_memory_get_data sstart provides sources s tok
        (some (.rslice (some i) none st)) = .error .typeError
    ∧ in_memory_get_data ds provides sources none (some (.rslice none none none))
        = .ok (filter_sources provides sources (ds.map .subarray)) := by
  refine ⟨rfl, rfl, ?_⟩
  have h : ds.mapM (fun col => pyIndexCol col (.rslice none none none))
      = .ok (ds.map (fun col => NpResult.subarray col)) :=
    exceptMapM_ok _ _ ds (fun col _ => by
      simp [pyIndexCol, pySlice_full, Except.map])
  unfold in_memory_get_data
  dsimp only
  rw [h]

/-- C8 counterexample: the claim says that in either load mode a request that
is neither a slice nor a list fails with a `ValueError`.  An in-memory view
with one stored column `[10, 20]` and the integer request `0` instead returns
the first row. -/
theorem claim8_cex_integer_request_returns_data :
    in_memory_get_data [[10, 20]] ["a"] ["a"] none (some (.rint 0))
      = .ok [.row 10] := by
  rfl

/-- C8 as amended: a streamed view's `get_data` fails with `ValueError` on any
request that is neither a slice nor an index list (an integer, or `None`); an
in-memory view fails with `ValueError` when the request is `None` or the
state token is not `None`, but performs no shape check on other request
values (the counterexample shows an integer request returning data). -/
theorem claim8_amended_request_shape_check {α : Type} (sstart i : Int)
    (provides sources : List String) (s : RegState α) (tok tok2 : String)
    (ds : List (List α)) (r : Option Request) :
    out_of_memory_get_data sstart provides sources s tok (some (.rint i))
        = .error .valueError
    ∧ out_of_memory_get_data sstart provides sources s tok none
        = .error .valueError
    ∧ in_memory_get_data ds provides sources none none = .error .valueError
    ∧ in_memory_get_data ds provides sources (some tok2) r = .error .valueError := by
  refine ⟨rfl, rfl, rfl, ?_⟩
  unfold in_memory_get_data
  cases r <;> rfl

/-- A one-column file with five records and split `s = [1, 4)`, for the split
resolution witnesses. -/
def fileS : HFile Nat := ⟨[("c", [0, 1, 2, 3, 4])], [("s", (1, 4))]⟩

/-- C4 (confirmed): with a valid split name `w` whose stored base range is
`(a, b)` and a subset `(x, y)` with step 1 or unspecified, `load` resolves the
range to exactly `(x, y)`; an unspecified subset start (resp. stop) resolves
to `a` (resp. `b`); and without a split name the base range is `(0, L)` where
`L` is the common first-dimension length of the columns. -/
theorem claim4_split_resolution {α : Type} (f : HFile α) (L : Nat) (w : String)
    (a b x y : Int) (stp : Option Int) (sources : List String)
    (hlen : ∀ p ∈ f.columns, p.2.length = L)
    (hw : w ≠ "") (hattr : lookupStr f.attrs w = some (a, b))
    (hstp : stp = none ∨ stp = some 1)
    (hax : a ≤ x) (hxy : x ≤ y) (hyb : y ≤ b) :
    load f (some w) ⟨some x, some y, stp⟩ sources false
        = .ok (⟨some x, some y, stp⟩, y - x, none)
    ∧ load f (some w) ⟨none, none, stp⟩ sources false
        = .ok (⟨some a, some b, stp⟩, b - a, none)
    ∧ load f (some w) ⟨none, some y, stp⟩ sources false
        = .ok (⟨some a, some y, stp⟩, y - a, none)
    ∧ load f (some w) ⟨some x, none, stp⟩ sources false
        = .ok (⟨some x, some b, stp⟩, b - x, none)
    ∧ (f.columns ≠ [] → load f none ⟨none, none, stp⟩ sources false
        = .ok (⟨some 0, some (L : Int), stp⟩, (L : Int), none)) := by
  have hsh := shapes_any_false f L hlen
  have hb := resolve_base_some f w a b hw hattr
  refine ⟨?_, ?_, ?_, ?_, ?_⟩
  · simpa using load_ok f (some w) ⟨some x, some y, stp⟩ sources a b hsh hstp hb
  · simpa using load_ok f (some w) ⟨none, none, stp⟩ sources a b hsh hstp hb
  · simpa using load_ok f (some w) ⟨none, some y, stp⟩ sources a b hsh hstp hb
  · simpa using load_ok f (some w) ⟨some x, none, stp⟩ sources a b hsh hstp hb
  · intro hne
    obtain ⟨q, t, hc⟩ := List.exists_cons_of_ne_nil hne
    have hq : q.2.length = L := hlen q (hc ▸ List.mem_cons_self q t)
    have hb0 := resolve_base_none f q t hc
    rw [hq] at hb0
    simpa using load_ok f none ⟨none, none, stp⟩ sources 0 (L : Int) hsh hstp hb0

/-- Witness for C4 at a concrete file: one column of length 5, split
`s = [1, 4)`, subset `(2, 3)`. -/
theorem claim4_split_resolution_witness :
    load fileS (some "s") ⟨some 2, some 3, none⟩ ["c"] false
      = .ok (⟨some 2, some 3, none⟩, 1, none) :=
  (claim4_split_resolution fileS 5 "s" 1 4 2 3 none ["c"]
    (by decide) (by decide) (by rfl) (Or.inl rfl)
    (by decide) (by decide) (by decide)).1

/-- C9 (confirmed): a successful `load` rewrites `self.subset` to the resolved
concrete slice; running `load` again on that rewritten subset, with the file
unchanged, resolves to the same slice and the same `num_examples`. -/
theorem claim9_load_idempotent {α : Type} (f : HFile α) (ws : Option String)
    (sb : PySl) (sources : List String) (lim : Bool) (sl : PySl) (n : Int)
    (ds : Option (List (List α)))
    (h : load f ws sb sources lim = .ok (sl, n, ds)) :
    ∃ ds2, load f ws sl sources lim = .ok (sl, n, ds2) := by
  obtain ⟨hstp, bstart, bstop, hb, hsl, hn, hsh⟩ := load_ok_inv h
  subst hsl
  subst hn
  cases lim with
  | false =>
      exact ⟨none, by
        simpa using load_ok f ws
          ⟨some (sb.sstart.getD bstart), some (sb.sstop.getD bstop), sb.sstep⟩
          sources bstart bstop hsh hstp hb⟩
  | true =>
      have hstp0 : sb.sstep ≠ some 0 := by
        rcases hstp with h1 | h1 <;> simp [h1]
      obtain ⟨ds2, hds2⟩ :=
        exceptMapM_isOk
          (fun p => pySlice p.2
            (some (sb.sstart.getD bstart)) (some (sb.sstop.getD bstop)) sb.sstep)
          (f.columns.filter (fun p => p.1 ∈ sources))
          (fun p _ => pySlice_isOk p.2 _ _ _ hstp0)
      exact ⟨some ds2, by
        simpa using load_ok_mem f ws
          ⟨some (sb.sstart.getD bstart), some (sb.sstop.getD bstop), sb.sstep⟩
          sources bstart bstop ds2 hsh hstp hb (by simpa [in_memory_data] using hds2)⟩

/-- Witness for C9: loading `fileS` with split `s` and an unspecified subset
resolves to `(1, 4)`; re-loading with the rewritten subset `(1, 4)` resolves
identically. -/
theorem claim9_load_idempotent_witness :
    ∃ ds2, load fileS (some "s") ⟨some 1, some 4, none⟩ ["c"] true
      = .ok (⟨some 1, some 4, none⟩, 3, ds2) :=
  claim9_load_idempotent fileS (some "s") ⟨none, none, none⟩ ["c"] true
    ⟨some 1, some 4, none⟩ 3 (some [[1, 2, 3]]) (by decide)

/-- C6 (confirmed): `_out_of_memory_get_data` translates a caller-relative
slice `[i, j)` to the absolute slice `[i + start, j + start)` and a
caller-relative index list by adding `start` to each index; in the spec's
scenario (columns `features` and `targets` of length 100, split attribute
`test = [80, 100]`, `which_set = "test"`, no subset) `load` resolves the range
to `(80, 100)` with `num_examples = 20`, and `get_data` on `slice(0, 5)`
returns `features[80:85]` and `targets[80:85]`. -/
theorem claim6_relative_to_absolute {α : Type} (sstart i j : Int)
    (st : Option Int) (l : List Int) (F T : List α) (c : Int) (s : RegState α)
    (tok : String) (hF : F.length = 100) (hT : T.length = 100)
    (hreg : refLookup s.reg tok
      = .pair ⟨[("features", F), ("targets", T)], [("test", (80, 100))]⟩ c) :
    out_of_memory_translate sstart (some (.rslice (some i) (some j) st))
        = .ok (.rslice (some (i + sstart)) (some (j + sstart)) st)
    ∧ out_of_memory_translate sstart (some (.rlist l))
        = .ok (.rlist (l.map (· + sstart)))
    ∧ load ⟨[("features", F), ("targets", T)], [("test", (80, 100))]⟩
        (some "test") ⟨none, none, none⟩ ["features", "targets"] false
        = .ok (⟨some 80, some 100, none⟩, 20, none)
    ∧ out_of_memory_get_data 80
        (provides_sources ⟨[("features", F), ("targets", T)], [("test", (80, 100))]⟩)
        ["features", "targets"] s tok (some (.rslice (some 0) (some 5) none))
        = .ok [.subarray ((F.take 85).drop 80), .subarray ((T.take 85).drop 80)] := by
  have hlen : ∀ p ∈ ([("features", F), ("targets", T)] : List (String × List α)),
      p.2.length = 100 := by
    intro p hp
    rcases List.mem_cons.mp hp with rfl | hp2
    · exact hF
    · rcases List.mem_cons.mp hp2 with rfl | hp3
      · exact hT
      · exact absurd hp3 (List.not_mem_nil p)
  refine ⟨rfl, rfl, ?_, ?_⟩
  · have hsh := shapes_any_false
      ⟨[("features", F), ("targets", T)], [("test", (80, 100))]⟩ 100 hlen
    have hb := resolve_base_some
      ⟨[("features", F), ("targets", T)], [("test", (80, 100))]⟩
      "test" 80 100 (by decide) rfl
    simpa using load_ok ⟨[("features", F), ("targets", T)], [("test", (80, 100))]⟩
      (some "test") ⟨none, none, none⟩ ["features", "targets"] 80 100 hsh
      (Or.inl rfl) hb
  · have hget : registry_get s.reg tok
        = .ok ⟨[("features", F), ("targets", T)], [("test", (80, 100))]⟩ := by
      unfold registry_get
      rw [hreg]
    have h1 : pyIndexCol F (.rslice (some 80) (some 85) none)
        = .ok (.subarray ((F.take 85).drop 80)) := by
      have := pySlice_take_drop F 80 85 (by omega) (by omega)
        (by rw [hF]; omega) (by rw [hF]; omega)
      simp [pyIndexCol, this, Except.map]
    have h2 : pyIndexCol T (.rslice (some 80) (some 85) none)
        = .ok (.subarray ((T.take 85).drop 80)) := by
      have := pySlice_take_drop T 80 85 (by omega) (by omega)
        (by rw [hT]; omega) (by rw [hT]; omega)
      simp [pyIndexCol, this, Except.map]
    have hm : ([F, T] : List (List α)).mapM
        (fun col => pyIndexCol col (.rslice (some 80) (some 85) none))
        = .ok [.subarray ((F.take 85).drop 80), .subarray ((T.take 85).drop 80)] := by
      rw [List.mapM_cons, h1, List.mapM_cons, h2, List.mapM_nil]
      rfl
    unfold out_of_memory_get_data
    rw [show out_of_memory_translate 80 (some (Request.rslice (some 0) (some 5) none))
        = .ok (.rslice (some 80) (some 85) none) from rfl]
    dsimp only
    rw [hget]
    dsimp only
    simp only [provides_sources, List.map_cons, List.map_nil]
    rw [hm]
    dsimp only
    rw [show filter_sources ["features", "targets"] ["features", "targets"]
        ([.subarray ((F.take 85).drop 80), .subarray ((T.take 85).drop 80)]
          : List (NpResult α))
        = [.subarray ((F.take 85).drop 80), .subarray ((T.take 85).drop 80)] by
      simp [filter_sources]]

/-- The spec's scenario file at concrete contents: `features` as 100 rows of
value 5 and `targets` as 100 rows of value 9. -/
def fScen : HFile Nat :=
  ⟨[("features", List.replicate 100 5), ("targets", List.replicate 100 9)],
   [("test", (80, 100))]⟩

/-- A registry holding `fScen` open at path `q` with count 1. -/
def sScen : RegState Nat := ⟨[("q", .pair fScen 1)], fun _ => 0, fun _ => 0⟩

/-- Witness for C6 at the concrete scenario file. -/
theorem claim6_relative_to_absolute_witness :
    load fScen (some "test") ⟨none, none, none⟩ ["features", "targets"] false
        = .ok (⟨some 80, some 100, none⟩, 20, none)
    ∧ out_of_memory_get_data 80 (provides_sources fScen) ["features", "targets"]
        sScen "q" (some (.rslice (some 0) (some 5) none))
        = .ok [.subarray (((List.replicate 100 5 : List Nat).take 85).drop 80),
               .subarray (((List.replicate 100 9 : List Nat).take 85).drop 80)] :=
  ⟨(claim6_relative_to_absolute 80 0 5 none [] (List.replicate 100 5)
      (List.replicate 100 9) 1 sScen "q" (by decide) (by decide) (by decide)).2.2.1,
   (claim6_relative_to_absolute 80 0 5 none [] (List.replicate 100 5)
      (List.replicate 100 9) 1 sScen "q" (by decide) (by decide) (by decide)).2.2.2⟩

/-- C5 counterexample: a view on `fileAB` exposing only column `b` with
resolved range `(0, 1)`.  The in-memory path stores only column `b` but
`filter_sources` re-filters the result positionally against
`provides_sources = [a, b]`, so in-memory `get_data` returns no arrays at all,
while the equivalent streamed view returns `b`'s data — the two modes
disagree. -/
theorem claim5_cex_mode_divergence :
    load fileAB none ⟨none, none, none⟩ ["b"] true
        = .ok (⟨some 0, some 1, none⟩, 1, some [[5]])
    ∧ in_memory_get_data [[5]] (provides_sources fileAB) ["b"] none
        (some (.rslice (some 0) (some 1) none)) = .ok []
    ∧ out_of_memory_get_data 0 (provides_sources fileAB) ["b"] stateAB "p"
        (some (.rslice (some 0) (some 1) none)) = .ok [.subarray [5]]
    ∧ (Except.ok ([] : List (NpResult Nat))
        ≠ (Except.ok [NpResult.subarray [5]] : Except PyErr (List (NpResult Nat)))) :=
  ⟨by decide, by decide, by decide, by decide⟩

/-- C5 as amended: for every file, resolved range `(a, b)` and caller-relative
contiguous request `[i, j)` within that range, an in-memory view's `get_data`
agrees value-for-value with the equivalent streamed view's `get_data`,
provided the view's exposed columns form an initial segment of the file's
column order — the first `m` file columns are exposed, where `m` is the number
of exposed columns (in particular, when all columns are exposed).  The
counterexample is a non-initial exposure, where the positional re-filtering of
the in-memory result misaligns and the modes diverge. -/
theorem claim5_amended_mode_equivalence {α : Type} (f : HFile α)
    (sources : List String) (c a b i j : Int) (L : Nat) (s : RegState α)
    (tok : String) (ds : List (List α))
    (hpre : ∀ nm ∈ (provides_sources f).take
        ((f.columns.filter (fun p => p.1 ∈ sources)).length), nm ∈ sources)
    (hlen : ∀ p ∈ f.columns, p.2.length = L)
    (h0 : 0 ≤ a) (hab : a ≤ b) (hbL : b ≤ (L : Int))
    (hi : 0 ≤ i) (hij : i ≤ j) (hjr : j ≤ b - a)
    (hds : in_memory_data f sources ⟨some a, some b, none⟩ = .ok ds)
    (hreg : refLookup s.reg tok = .pair f c) :
    in_memory_get_data ds (provides_sources f) sources none
        (some (.rslice (some i) (some j) none))
      = out_of_memory_get_data a (provides_sources f) sources s tok
        (some (.rslice (some i) (some j) none)) := by
  have hslice : ∀ p ∈ f.columns.filter (fun p => p.1 ∈ sources),
      pySlice p.2 (some a) (some b) none
        = .ok ((p.2.take b.toNat).drop a.toNat) := by
    intro p hp
    have hpl := hlen p (List.mem_of_mem_filter hp)
    exact pySlice_take_drop p.2 a b h0 (by omega) (by omega) (by omega)
  have hmapds := exceptMapM_ok _
    (fun p : String × List α => (p.2.take b.toNat).drop a.toNat) _ hslice
  have hds' : ds = (f.columns.filter (fun p => p.1 ∈ sources)).map
      (fun p => (p.2.take b.toNat).drop a.toNat) := by
    unfold in_memory_data at hds
    dsimp only at hds
    rw [hmapds] at hds
    injection hds with h
    exact h.symm
  subst hds'
  have hLf : ∀ ys ∈ (f.columns.filter (fun p => p.1 ∈ sources)).map
      (fun p => (p.2.take b.toNat).drop a.toNat),
      pyIndexCol ys (.rslice (some i) (some j) none)
        = .ok (NpResult.subarray ((ys.take j.toNat).drop i.toNat)) := by
    intro ys hys
    obtain ⟨p, hp, rfl⟩ := List.mem_map.mp hys
    have hl : ((p.2.take b.toNat).drop a.toNat).length = b.toNat - a.toNat := by
      rw [List.length_drop, List.length_take]
      have := hlen p (List.mem_of_mem_filter hp)
      omega
    have := pySlice_take_drop ((p.2.take b.toNat).drop a.toNat) i j hi
      (by omega) (by rw [hl]; omega) (by rw [hl]; omega)
    simp [pyIndexCol, this, Except.map]
  have hmapL := exceptMapM_ok _
    (fun ys : List α => NpResult.subarray ((ys.take j.toNat).drop i.toNat)) _ hLf
  have hRf : ∀ col ∈ f.columns.map (fun p => p.2),
      pyIndexCol col (.rslice (some (i + a)) (some (j + a)) none)
        = .ok (NpResult.subarray ((col.take (j + a).toNat).drop (i + a).toNat)) := by
    intro col hcol
    obtain ⟨p, hp, rfl⟩ := List.mem_map.mp hcol
    have hpl := hlen p hp
    have := pySlice_take_drop p.2 (i + a) (j + a) (by omega) (by omega)
      (by omega) (by omega)
    simp [pyIndexCol, this, Except.map]
  have hmapR := exceptMapM_ok _
    (fun col : List α =>
      NpResult.subarray ((col.take (j + a).toNat).drop (i + a).toNat))
    _ hRf
  have hget : registry_get s.reg tok = .ok f := by
    unfold registry_get
    rw [hreg]
  unfold in_memory_get_data out_of_memory_get_data
  dsimp only
  rw [hmapL]
  rw [show out_of_memory_translate a (some (Request.rslice (some i) (some j) none))
      = .ok (.rslice (some (i + a)) (some (j + a)) none) from rfl]
  dsimp only
  rw [hget]
  dsimp only
  rw [hmapR]
  dsimp only
  rw [filter_sources_initial sources (provides_sources f) _
      (by
        simp only [List.length_map, provides_sources]
        exact List.length_filter_le _ _)
      (by simpa only [List.length_map] using hpre)]
  rw [List.map_map, List.map_map]
  unfold provides_sources
  rw [filter_sources_aligned sources _ f.columns]
  refine congrArg Except.ok (List.map_congr_left ?_)
  intro p hp
  show NpResult.subarray ((((p.2.take b.toNat).drop a.toNat).take j.toNat).drop i.toNat)
    = NpResult.subarray ((p.2.take (j + a).toNat).drop (i + a).toNat)
  rw [take_drop_comp p.2 a b i j h0 hab hi hij hjr]

/-- Witness for C5 at a proper initial-segment exposure: only column `a` of
the two-column `fileAB` is exposed, resolved range `(0, 1)`, request `[0, 1)`;
the two modes agree. -/
theorem claim5_amended_mode_equivalence_witness :
    in_memory_get_data [[0]] (provides_sources fileAB) ["a"] none
        (some (.rslice (some 0) (some 1) none))
      = out_of_memory_get_data 0 (provides_sources fileAB) ["a"] stateAB "p"
        (some (.rslice (some 0) (some 1) none)) :=
  claim5_amended_mode_equivalence fileAB ["a"] 1 0 1 0 1 1 stateAB "p" [[0]]
    (by decide) (by decide) (by decide) (by decide) (by decide)
    (by decide) (by decide) (by decide) (by decide) (by decide)

/-- C7 counterexample, two failures of the claim on `fileAB`: an in-memory
view exposing exactly one column (`b`) returns zero result arrays from
`get_data` — not one array per exposed column — because the stored,
already-restricted data is filtered a second time against the positional
`provides_sources` alignment; and a streamed view declaring its exposed
columns in the order `["b", "a"]` still receives the results in the file's
column order (`a` first), not in the declared order. -/
theorem claim7_cex_missing_column :
    in_memory_get_data [[5]] (provides_sources fileAB) ["b"] none
        (some (.rslice (some 0) (some 1) none)) = .ok []
    ∧ ([] : List (NpResult Nat)).length ≠ (["b"] : List String).length
    ∧ out_of_memory_get_data 0 (provides_sources fileAB) ["b", "a"] stateAB "p"
        (some (.rslice (some 0) (some 1) none))
        = .ok [.subarray [0], .subarray [5]]
    ∧ (Except.ok [NpResult.subarray [0], NpResult.subarray [5]]
        ≠ (Except.ok [NpResult.subarray [5], NpResult.subarray [0]]
            : Except PyErr (List (NpResult Nat)))) :=
  ⟨by decide, by decide, by decide, by decide⟩

/-- C7 as amended: for every streamed view and every valid request — any
request whose translation succeeds (a slice with both bounds present, or an
index list) and whose translated form indexes every column without error —
`get_data` returns exactly one result array per column of the view's exposed
set, namely that column indexed with the translated request, and no array for
any other column, in the order the exposed columns appear in the file (not
the declared order, when that differs); an in-memory view's `get_data` is the
plain per-stored-column indexing (hence one result per exposed column)
whenever its stored columns are aligned with an initial segment of exposed
file columns — in particular whenever the exposed set forms an initial
segment of the file's column order, e.g. all columns. -/
theorem claim7_amended_result_columns {α : Type} (f : HFile α)
    (sources : List String) (c sstart : Int) (s : RegState α) (tok : String)
    (request : Option Request) (r r2 : Request) (ds : List (List α))
    (hreg : refLookup s.reg tok = .pair f c)
    (htr : out_of_memory_translate sstart request = .ok r)
    (hok : ∀ p ∈ f.columns, ∃ v, pyIndexCol p.2 r = .ok v) :
    out_of_memory_get_data sstart (provides_sources f) sources s tok request
      = (f.columns.filter (fun p => p.1 ∈ sources)).mapM
          (fun p => pyIndexCol p.2 r)
    ∧ (ds.length ≤ (provides_sources f).length →
        (∀ nm ∈ (provides_sources f).take ds.length, nm ∈ sources) →
        in_memory_get_data ds (provides_sources f) sources none (some r2)
          = ds.mapM (fun col => pyIndexCol col r2)) := by
  constructor
  · have hget : registry_get s.reg tok = .ok f := by
      unfold registry_get
      rw [hreg]
    obtain ⟨vals, hvals, hfs⟩ :=
      mapM_filter_sources_comm sources (fun col => pyIndexCol col r) f.columns hok
    unfold out_of_memory_get_data
    rw [htr]
    dsimp only
    rw [hget]
    dsimp only
    rw [hvals]
    dsimp only
    unfold provides_sources
    exact hfs
  · intro hl hpr
    unfold in_memory_get_data
    dsimp only
    cases hm : ds.mapM (fun col => pyIndexCol col r2) with
    | error e => rfl
    | ok vals =>
        dsimp only
        rw [filter_sources_initial sources (provides_sources f) vals
          (by rw [exceptMapM_length _ ds vals hm]; exact hl)
          (by rw [exceptMapM_length _ ds vals hm]; exact hpr)]

/-- Witness for C7 at `fileAB`: a streamed view exposing the initial segment
`["a"]` with the request `slice(0, 1)` (translated start 0), and an in-memory
view with the same exposure and its one stored column. -/
theorem claim7_amended_result_columns_witness :
    out_of_memory_get_data 0 (provides_sources fileAB) ["a"] stateAB "p"
        (some (.rslice (some 0) (some 1) none))
      = (fileAB.columns.filter (fun p => p.1 ∈ (["a"] : List String))).mapM
          (fun p => pyIndexCol p.2 (.rslice (some 0) (some 1) none))
    ∧ in_memory_get_data [[0]] (provides_sources fileAB) ["a"] none
        (some (.rslice (some 0) (some 1) none))
      = ([[0]] : List (List Nat)).mapM
          (fun col => pyIndexCol col (.rslice (some 0) (some 1) none)) := by
  have h := claim7_amended_result_columns fileAB ["a"] 1 0 stateAB "p"
    (some (.rslice (some 0) (some 1) none)) (.rslice (some 0) (some 1) none)
    (.rslice (some 0) (some 1) none) [[0]] (by decide) (by decide)
    (by
      intro p hp
      simp only [fileAB, List.mem_cons, List.not_mem_nil, or_false] at hp
      rcases hp with rfl | rfl
      · exact ⟨_, rfl⟩
      · exact ⟨_, rfl⟩)
  exact ⟨h.1, h.2 (by decide) (by decide)⟩

end Hdf5
